import Mathlib

/-
Shallow embedding of SubjectiveTranscribeLocalVideoDataSource.py.

Paths, filenames and digests are modelled as lists of characters, and raw
file contents as lists of bytes (natural numbers).  Filesystem access, the
Whisper transcription model, the pydub audio extraction stage and the md5
digest are external collaborators; they enter the embedding as explicit
function parameters (records Env and FsModel below), so every definition
here is a pure, executable translation of the Python source.
-/

abbrev PathStr := List Char

abbrev Bytes := List Nat

/-- Helper turning a string literal into the character-list path model. -/
def chars (s : String) : PathStr := s.data

/-- Model of os.path.basename: the characters after the last slash. -/
def basename (p : PathStr) : PathStr :=
  (p.reverse.takeWhile (fun c => c ≠ '/')).reverse

/-- Model of the check endswith applied with the pair of supported video
extensions, as used at lines 170, 193, 204 and 445 of the source. -/
def hasVideoExt (p : PathStr) : Bool :=
  (chars ".mp4").isSuffixOf p || (chars ".mkv").isSuffixOf p

/-- Model of os.path.isabs on POSIX paths. -/
def isAbsPath (p : PathStr) : Bool :=
  match p with
  | [] => false
  | c :: _ => c = '/'

/-- Model of os.path.join for one directory and one relative name. -/
def joinPath (d n : PathStr) : PathStr :=
  if (chars "/").isSuffixOf d then d ++ n else d ++ '/' :: n

/-- Python truthiness of an optional string value: None and the empty
string are falsy, every other string is kept. -/
def truthyStr (o : Option PathStr) : Option PathStr :=
  match o with
  | some s => if s = [] then none else some s
  | none => none

def MiB : Nat := 1024 * 1024

/-- The byte sequence that _get_video_hash feeds to hashlib.md5: the whole
file when its size is at most 2 MiB, otherwise the first MiB followed by
the last MiB (lines 341 to 351 of the source). -/
def hashInputBytes (content : Bytes) : Bytes :=
  if content.length ≤ 2 * MiB then content
  else content.take MiB ++ content.drop (content.length - MiB)

/-- Model of _get_video_hash.  The argument none stands for a file whose
open or read raised, in which case the handler at lines 354 to 356 returns
None; otherwise the md5 hex digest of hashInputBytes is returned.  The
digest function md5hex is an external collaborator passed explicitly. -/
def get_video_hash (md5hex : Bytes → PathStr) (fileContent : Option Bytes) : Option PathStr :=
  match fileContent with
  | none => none
  | some content => some (md5hex (hashInputBytes content))

/-- The metadata fields of a stored context JSON file that the dedup scan
reads with data.get.  A missing key reads as none. -/
structure ContextMeta where
  video_path : Option PathStr
  video_filename : Option PathStr
  video_hash : Option PathStr
  deriving DecidableEq, Repr

/-- Model of _check_context_metadata (lines 374 to 398).  The argument
none for contextData stands for a context file whose read or JSON parse
raised; the handler logs and falls through to return False.  The three
match rules are tested in order with short circuit, and the hash rule is
guarded by the Python truthiness of video_hash. -/
def check_context_metadata (contextData : Option ContextMeta) (video_path : PathStr)
    (video_hash : Option PathStr) (video_filename : PathStr) : Bool :=
  match contextData with
  | none => false
  | some data =>
    if data.video_path = some video_path then true
    else if data.video_filename = some video_filename then true
    else
      match video_hash with
      | some h => if h ≠ [] ∧ data.video_hash = some h then true else false
      | none => false

/-- The first two match rules of _check_context_metadata on their own
(path equality and filename equality), used to state which rule decided a
candidate. -/
def check_rule12 (contextData : Option ContextMeta) (video_path : PathStr)
    (video_filename : PathStr) : Bool :=
  match contextData with
  | none => false
  | some data =>
    if data.video_path = some video_path then true
    else if data.video_filename = some video_filename then true
    else false

/-- Model of _context_file_exists (lines 358 to 372): compute the basename
and the fingerprint of the candidate, then scan every context file in the
output directory.  The fingerprint of a path is supplied by fp, the
composition of the file read with _get_video_hash. -/
def context_file_exists (fp : PathStr → Option PathStr) (contextFiles : List (Option ContextMeta))
    (video_path : PathStr) : Bool :=
  let video_filename := basename video_path
  let video_hash := fp video_path
  contextFiles.any (fun cf => check_context_metadata cf video_path video_hash video_filename)

/-- Outcome of the external extraction and transcription stages for one
video, seen from _process_video_file. -/
inductive ItemOutcome where
  /-- _extract_audio_from_video caught an exception and returned None. -/
  | extractFail
  /-- whisper raised inside _transcribe_audio, which returns the empty
  string (lines 306 to 308). -/
  | transcribeErr
  /-- transcription returned the text t. -/
  | transcript (t : List Char)
  /-- some other exception reached the handler of _process_video_file. -/
  | exn
  deriving DecidableEq, Repr

/-- The external collaborators of the data source: the per-path
fingerprint, the stat calls, the extraction and transcription stages, the
clock strings and whether whisper.load_model succeeds. -/
structure Env where
  fp : PathStr → Option PathStr
  size : PathStr → Nat
  mtimeOf : PathStr → Nat
  isoOf : Nat → List Char
  nowTime : List Char
  modelSize : List Char
  modelLoads : Bool
  outcome : PathStr → ItemOutcome

/-- The artifact payload built by _build_transcript_payload
(lines 310 to 332). -/
structure TranscriptPayload where
  video_path : PathStr
  video_filename : PathStr
  video_hash : Option PathStr
  video_size : Nat
  video_mtime : Nat
  video_recording_time : List Char
  transcription_time : List Char
  whisper_model : List Char
  transcription : List Char
  deriving DecidableEq, Repr

/-- Model of _build_transcript_payload. -/
def build_transcript_payload (env : Env) (transcript : List Char) (video_path : PathStr) :
    TranscriptPayload :=
  { video_path := video_path
    video_filename := basename video_path
    video_hash := env.fp video_path
    video_size := env.size video_path
    video_mtime := env.mtimeOf video_path
    video_recording_time := env.isoOf (env.mtimeOf video_path)
    transcription_time := env.nowTime
    whisper_model := env.modelSize
    transcription := transcript }

/-- The metadata fields of a freshly written artifact as the dedup scan
will later read them back. -/
def payloadMeta (a : TranscriptPayload) : ContextMeta :=
  { video_path := some a.video_path
    video_filename := some a.video_filename
    video_hash := a.video_hash }

/-- The per-item subscriber event of type video_transcription emitted at
lines 243 to 251 (identifying fields only). -/
structure TransEvent where
  video_path : PathStr
  video_filename : PathStr
  transcript : List Char
  deriving DecidableEq, Repr

/-- Result of one call to _process_video_file: the boolean return value,
the artifact written to the output directory if any, and the per-item
events emitted. -/
structure ItemResult where
  success : Bool
  artifact : Option TranscriptPayload
  events : List TransEvent
  deriving DecidableEq, Repr

/-- Model of _process_video_file (lines 220 to 263).  Every failure of the
stages is caught and reported as success false with no artifact and no
event; a transcript is accepted exactly when it is truthy, that is,
nonempty (line 237 tests if transcript). -/
def process_video_file (env : Env) (video_path : PathStr) : ItemResult :=
  match env.outcome video_path with
  | .exn => ⟨false, none, []⟩
  | .extractFail => ⟨false, none, []⟩
  | .transcribeErr => ⟨false, none, []⟩
  | .transcript t =>
    if t ≠ [] then
      let payload := build_transcript_payload env t video_path
      ⟨true, some payload, [⟨video_path, basename video_path, t⟩]⟩
    else ⟨false, none, []⟩

/-- The mutable state the batch loop and process_input touch: the context
files present in the output directory plus the two instance counters set
in the constructor at lines 52 and 53. -/
structure BatchState where
  contextFiles : List (Option ContextMeta)
  processed_count : Nat
  skipped_count : Nat
  deriving DecidableEq, Repr

/-- One iteration of the candidate loop of fetch (lines 86 to 109):
skip and count when the dedup scan matches, otherwise run the single item
pipeline and count a success. -/
def fetch_step (env : Env) (st : BatchState) (video_path : PathStr) : BatchState :=
  if context_file_exists env.fp st.contextFiles video_path then
    { st with skipped_count := st.skipped_count + 1 }
  else
    let r := process_video_file env video_path
    match r.artifact with
    | some a =>
      { st with contextFiles := st.contextFiles ++ [some (payloadMeta a)]
                processed_count := st.processed_count + 1 }
    | none => st

/-- The candidate loop of fetch over a list of resolved video paths. -/
def fetch_loop (env : Env) (videos : List PathStr) (st : BatchState) : BatchState :=
  videos.foldl (fetch_step env) st

/-- Filesystem collaborator: existence test and non-recursive directory
listing (names only, as os.listdir returns). -/
structure FsModel where
  pathExists : PathStr → Bool
  listDir : PathStr → List PathStr

/-- Stable insertion of one name into a list already sorted by key
descending; ties keep the earlier name first, as the stable Python sort
does. -/
def insertDescBy (key : PathStr → Nat) (x : PathStr) : List PathStr → List PathStr
  | [] => [x]
  | y :: ys => if key y ≤ key x then x :: y :: ys else y :: insertDescBy key x ys

/-- Model of list.sort with a key function and reverse=True: a stable sort
by key descending. -/
def sortDescBy (key : PathStr → Nat) : List PathStr → List PathStr
  | [] => []
  | x :: xs => insertDescBy key x (sortDescBy key xs)

/-- The exceptions that can escape fetch. -/
inductive FetchErr where
  /-- FileNotFoundError raised at line 191 or 202. -/
  | fileNotFound (p : PathStr)
  /-- ValueError for an unsupported format raised at line 194. -/
  | unsupportedFormat (p : PathStr)
  /-- an exception from whisper.load_model, re-raised by the handler of
  fetch. -/
  | modelLoadError
  deriving DecidableEq, Repr

/-- The two configuration fields of the instance that discovery reads. -/
structure Config where
  specific_video_path : Option PathStr
  videos_dir : Option PathStr
  deriving DecidableEq, Repr

/-- Model of _get_video_files (lines 184 to 210).  A configured specific
file is validated for existence then extension; directory mode lists the
directory, filters to the supported extensions and sorts by modification
time of the joined path, newest first. -/
def get_video_files (env : Env) (fs : FsModel) (specific_video_path videos_dir : Option PathStr) :
    Except FetchErr (List PathStr) :=
  match truthyStr specific_video_path with
  | some p =>
    if fs.pathExists p = false then .error (.fileNotFound p)
    else if ¬ hasVideoExt p then .error (.unsupportedFormat p)
    else .ok [p]
  | none =>
    match truthyStr videos_dir with
    | none => .ok []
    | some d =>
      if fs.pathExists d = false then .error (.fileNotFound d)
      else
        let video_files := (fs.listDir d).filter hasVideoExt
        .ok (sortDescBy (fun n => env.mtimeOf (joinPath d n)) video_files)

/-- Resolution of one candidate to the path handed to the pipeline
(line 87): absolute names pass through, relative names are joined with the
videos directory.  The none branch for the directory cannot arise from
discovery, which only returns relative names in directory mode. -/
def resolve_video_path (videos_dir : Option PathStr) (video_file : PathStr) : PathStr :=
  if isAbsPath video_file then video_file
  else
    match videos_dir with
    | some d => joinPath d video_file
    | none => video_file

/-- The resolved candidate list one invocation of fetch iterates over;
empty when fetch returns early or raises before the loop. -/
def candidatesOf (env : Env) (fs : FsModel) (cfg : Config) : List PathStr :=
  if truthyStr cfg.specific_video_path = none ∧ truthyStr cfg.videos_dir = none then []
  else
    match get_video_files env fs cfg.specific_video_path cfg.videos_dir with
    | .error _ => []
    | .ok names => names.map (resolve_video_path cfg.videos_dir)

/-- Model of fetch (lines 55 to 129).  With no configuration it returns
without touching the state; discovery errors and a model load failure are
re-raised by the handler at lines 125 to 129; otherwise the candidate loop
runs and the summary reports the instance counters. -/
def fetch (env : Env) (fs : FsModel) (cfg : Config) (st : BatchState) :
    Except FetchErr BatchState :=
  if truthyStr cfg.specific_video_path = none ∧ truthyStr cfg.videos_dir = none then .ok st
  else
    match get_video_files env fs cfg.specific_video_path cfg.videos_dir with
    | .error e => .error e
    | .ok names =>
      if names = [] then .ok st
      else if env.modelLoads = false then .error .modelLoadError
      else .ok (fetch_loop env (names.map (resolve_video_path cfg.videos_dir)) st)

/-- The shapes a pipeline notification can take at the effective
process_input entry point (lines 420 to 477): a plain string, a mapping
with the three recognized keys, or anything else. -/
inductive PipeInput where
  | str (s : PathStr)
  | dict (path dest_path file_path : Option PathStr)
  | other
  deriving DecidableEq, Repr

/-- Python or-chaining of two optional strings: the left value wins when
it is truthy. -/
def orPath (a b : Option PathStr) : Option PathStr :=
  match truthyStr a with
  | some p => some p
  | none => b

/-- The file path extracted from a notification at lines 434 to 438. -/
def extract_file_path (data : PipeInput) : Option PathStr :=
  match data with
  | .str s => some s
  | .dict p d f => orPath p (orPath d f)
  | .other => none

/-- What one call to the effective process_input did: whether
_process_video_file was invoked, and its return value when it was. -/
structure ProcInputResult where
  attempted : Bool
  success : Option Bool
  deriving DecidableEq, Repr

/-- Model of the effective process_input (lines 420 to 477), the second
definition of that name in the class body, which shadows the first.  All
invalid notifications return without touching the state; the outer handler
absorbs every exception, including a model load failure, so the call
always returns normally. -/
def process_input (env : Env) (fs : FsModel) (st : BatchState) (data : PipeInput) :
    BatchState × ProcInputResult :=
  match truthyStr (extract_file_path data) with
  | none => (st, ⟨false, none⟩)
  | some file_path =>
    if ¬ hasVideoExt file_path then (st, ⟨false, none⟩)
    else if fs.pathExists file_path = false then (st, ⟨false, none⟩)
    else if context_file_exists env.fp st.contextFiles file_path then (st, ⟨false, none⟩)
    else if env.modelLoads = false then (st, ⟨false, none⟩)
    else
      let r := process_video_file env file_path
      let st' :=
        match r.artifact with
        | some a => { st with contextFiles := st.contextFiles ++ [some (payloadMeta a)] }
        | none => st
      if r.success then
        ({ st' with processed_count := st'.processed_count + 1 }, ⟨true, some true⟩)
      else (st', ⟨true, some false⟩)

/-
Theorems.  Helper lemmas come first, then one theorem per claim with its
witness where the theorem carries hypotheses.
-/

theorem check_context_metadata_iff (cf : Option ContextMeta) (p : PathStr)
    (vh : Option PathStr) (fn : PathStr) (hvh : vh ≠ some []) :
    check_context_metadata cf p vh fn = true ↔
      ∃ data, cf = some data ∧
        (data.video_path = some p ∨ data.video_filename = some fn ∨
          (vh ≠ none ∧ data.video_hash = vh)) := by
  cases cf with
  | none => simp [check_context_metadata]
  | some data =>
    simp only [check_context_metadata]
    by_cases h1 : data.video_path = some p
    · simp [h1]
    · by_cases h2 : data.video_filename = some fn
      · simp [h1, h2]
      · cases hvhc : vh with
        | none => simp [h1, h2]
        | some h =>
          have hne : h ≠ [] := by
            intro hnil
            exact hvh (hnil ▸ hvhc)
          simp [h1, h2, hne]

theorem check_context_metadata_none_hash (cf : Option ContextMeta) (p fn : PathStr) :
    check_context_metadata cf p none fn = check_rule12 cf p fn := by
  cases cf <;> rfl

/-- C1: the dedup check returns a match exactly when some artifact in the
output directory satisfies rule 1 (stored video_path equals the candidate
path), rule 2 (stored video_filename equals the candidate basename) or,
when the candidate fingerprint was computable, rule 3 (stored video_hash
equals that fingerprint); an unparseable artifact (modelled as none) is a
non-match and propagates no error.  The hypothesis records that an actual
md5 hex digest is never the empty string. -/
theorem c1_dedup_match_iff (fp : PathStr → Option PathStr)
    (contextFiles : List (Option ContextMeta)) (video_path : PathStr)
    (hfp : fp video_path ≠ some []) :
    context_file_exists fp contextFiles video_path = true ↔
      ∃ cf ∈ contextFiles, ∃ data, cf = some data ∧
        (data.video_path = some video_path ∨
         data.video_filename = some (basename video_path) ∨
         (fp video_path ≠ none ∧ data.video_hash = fp video_path)) := by
  simp only [context_file_exists, List.any_eq_true]
  constructor
  · rintro ⟨cf, hmem, hc⟩
    exact ⟨cf, hmem, (check_context_metadata_iff cf _ _ _ hfp).1 hc⟩
  · rintro ⟨cf, hmem, hdata⟩
    exact ⟨cf, hmem, (check_context_metadata_iff cf _ _ _ hfp).2 hdata⟩

def fpSample : PathStr → Option PathStr := fun _ => some (chars "d41d8c")

def ctxSample : List (Option ContextMeta) :=
  [none, some ⟨some (chars "/v/a.mp4"), some (chars "a.mp4"), none⟩]

/-- Witness for C1: the concrete artifact list ctxSample matches the
candidate /v/a.mp4 by rule 1, through the equivalence of c1_dedup_match_iff. -/
theorem c1_dedup_match_iff_witness :
    fpSample (chars "/v/a.mp4") ≠ some [] ∧
    context_file_exists fpSample ctxSample (chars "/v/a.mp4") = true := by
  refine ⟨by decide, ?_⟩
  exact (c1_dedup_match_iff fpSample ctxSample (chars "/v/a.mp4") (by decide)).2
    ⟨some ⟨some (chars "/v/a.mp4"), some (chars "a.mp4"), none⟩, by decide,
      ⟨some (chars "/v/a.mp4"), some (chars "a.mp4"), none⟩, rfl, Or.inl (by decide)⟩

/-- C10: the fingerprint function is total with an Option shaped result:
an unreadable file (modelled as the none content) yields none rather than
an exception, and when the fingerprint is none the dedup scan decides the
candidate by the path and filename rules alone. -/
theorem c10_hash_option_total (md5hex : Bytes → PathStr) (fp : PathStr → Option PathStr)
    (contextFiles : List (Option ContextMeta)) (p : PathStr) (hfp : fp p = none) :
    get_video_hash md5hex none = none ∧
    context_file_exists fp contextFiles p =
      contextFiles.any (fun cf => check_rule12 cf p (basename p)) := by
  refine ⟨rfl, ?_⟩
  simp only [context_file_exists, hfp, check_context_metadata_none_hash]

def fpNone : PathStr → Option PathStr := fun _ => none

/-- Witness for C10 at a concrete artifact list whose only parseable entry
matches the candidate by filename. -/
theorem c10_hash_option_total_witness :
    fpNone (chars "/v/a.mp4") = none ∧
    (get_video_hash (fun _ => chars "d4") none = none ∧
      context_file_exists fpNone ctxSample (chars "/v/a.mp4") =
        ctxSample.any (fun cf => check_rule12 cf (chars "/v/a.mp4") (basename (chars "/v/a.mp4")))) :=
  ⟨rfl, c10_hash_option_total (fun _ => chars "d4") fpNone ctxSample (chars "/v/a.mp4") rfl⟩

/-- C4: the fingerprint hashes the whole content when the file size is at
most 2 MiB and the concatenation of the first and last MiB when it is
larger; it is deterministic on equal bytes, and two contents of equal
length above 2 MiB agreeing on their first and last MiB receive the same
digest. -/
theorem c4_fingerprint_bounded (md5hex : Bytes → PathStr) (c c1 c2 : Bytes)
    (hlen : c1.length = c2.length) (hbig : 2 * MiB < c1.length)
    (hhead : c1.take MiB = c2.take MiB)
    (htail : c1.drop (c1.length - MiB) = c2.drop (c2.length - MiB)) :
    (c.length ≤ 2 * MiB → hashInputBytes c = c) ∧
    (2 * MiB < c.length → hashInputBytes c = c.take MiB ++ c.drop (c.length - MiB)) ∧
    get_video_hash md5hex (some c) = get_video_hash md5hex (some c) ∧
    get_video_hash md5hex (some c1) = get_video_hash md5hex (some c2) := by
  refine ⟨fun h => by simp [hashInputBytes, h], fun h => ?_, rfl, ?_⟩
  · simp [hashInputBytes, Nat.not_le.mpr h]
  · have e1 : hashInputBytes c1 = c1.take MiB ++ c1.drop (c1.length - MiB) := by
      simp [hashInputBytes, Nat.not_le.mpr hbig]
    have e2 : hashInputBytes c2 = c2.take MiB ++ c2.drop (c2.length - MiB) := by
      simp [hashInputBytes, Nat.not_le.mpr (hlen ▸ hbig)]
    simp only [get_video_hash, e1, e2, hhead, htail]

def sampleBigBytes : Bytes := List.replicate (2 * MiB + 1) 0

/-- Witness for C4 on a concrete content of 2 MiB plus one byte. -/
theorem c4_fingerprint_bounded_witness :
    sampleBigBytes.length = sampleBigBytes.length ∧
    2 * MiB < sampleBigBytes.length ∧
    (((List.length ([] : Bytes) ≤ 2 * MiB → hashInputBytes [] = []) ∧
      (2 * MiB < List.length ([] : Bytes) →
        hashInputBytes [] = List.take MiB [] ++ List.drop (List.length ([] : Bytes) - MiB) []) ∧
      get_video_hash (fun _ => chars "d4") (some []) = get_video_hash (fun _ => chars "d4") (some []) ∧
      get_video_hash (fun _ => chars "d4") (some sampleBigBytes) =
        get_video_hash (fun _ => chars "d4") (some sampleBigBytes))) := by
  have hbig : 2 * MiB < sampleBigBytes.length := by
    rw [sampleBigBytes, List.length_replicate]
    omega
  exact ⟨rfl, hbig, c4_fingerprint_bounded (fun _ => chars "d4") [] sampleBigBytes sampleBigBytes
    rfl hbig rfl rfl⟩

def envWhitespace : Env :=
  { fp := fun _ => none
    size := fun _ => 0
    mtimeOf := fun _ => 0
    isoOf := fun _ => []
    nowTime := []
    modelSize := chars "base"
    modelLoads := true
    outcome := fun _ => .transcript [' '] }

/-- C6 counterexample: a transcription stage returning a single blank
space, a whitespace-only transcript, is truthy in Python, so
_process_video_file succeeds, writes an artifact and emits the per-item
event, contradicting the claim that blank transcripts are failures. -/
theorem c6_counterexample :
    (process_video_file envWhitespace (chars "/v/a.mp4")).success = true ∧
    (process_video_file envWhitespace (chars "/v/a.mp4")).artifact ≠ none ∧
    (process_video_file envWhitespace (chars "/v/a.mp4")).events ≠ [] := by
  decide

/-- C6 amended: a transcription stage returning the empty transcript,
including a transcription exception which _transcribe_audio converts to
the empty string, makes the single item pipeline return failure with no
artifact and no per-item event, without raising; a whitespace-only
nonempty transcript is instead treated as a success. -/
theorem c6_empty_transcript_fails (env : Env) (p : PathStr)
    (h : env.outcome p = .transcript [] ∨ env.outcome p = .transcribeErr) :
    process_video_file env p = ⟨false, none, []⟩ := by
  rcases h with h | h <;> simp [process_video_file, h]

def envEmptyT : Env :=
  { envWhitespace with outcome := fun _ => .transcript [] }

/-- Witness for the amended C6 at a concrete environment whose
transcription stage returns the empty string. -/
theorem c6_empty_transcript_fails_witness :
    (envEmptyT.outcome (chars "/v/a.mp4") = .transcript [] ∨
      envEmptyT.outcome (chars "/v/a.mp4") = .transcribeErr) ∧
    process_video_file envEmptyT (chars "/v/a.mp4") = ⟨false, none, []⟩ :=
  ⟨Or.inl rfl, c6_empty_transcript_fails envEmptyT (chars "/v/a.mp4") (Or.inl rfl)⟩

/-- C9: the effective process_input entry point (the second definition of
that name in the class body, which shadows the first) accepts a string or
a mapping carrying the path under path, dest_path or file_path; a shape
without a recognized truthy path, an unsupported extension or a missing
file is a silent no-op that leaves the state untouched and writes no
artifact, and an exception from the model load is absorbed the same way,
so the call always returns normally. -/
theorem c9_process_input_noop (env : Env) (fs : FsModel) (st : BatchState) (data : PipeInput) :
    (truthyStr (extract_file_path data) = none →
      process_input env fs st data = (st, ⟨false, none⟩)) ∧
    (∀ p, truthyStr (extract_file_path data) = some p → hasVideoExt p = false →
      process_input env fs st data = (st, ⟨false, none⟩)) ∧
    (∀ p, truthyStr (extract_file_path data) = some p → fs.pathExists p = false →
      process_input env fs st data = (st, ⟨false, none⟩)) ∧
    (env.modelLoads = false → process_input env fs st data = (st, ⟨false, none⟩)) ∧
    extract_file_path PipeInput.other = none ∧
    (∀ s, extract_file_path (.str s) = some s) ∧
    (∀ pk dk fk, extract_file_path (.dict pk dk fk) = orPath pk (orPath dk fk)) := by
  refine ⟨?_, ?_, ?_, ?_, rfl, fun s => rfl, fun pk dk fk => rfl⟩
  · intro h
    simp [process_input, h]
  · intro p hp hext
    simp [process_input, hp, hext]
  · intro p hp hne
    by_cases hext : hasVideoExt p <;> simp [process_input, hp, hne, hext]
  · intro hm
    cases hcase : truthyStr (extract_file_path data) with
    | none => simp [process_input, hcase]
    | some p =>
      by_cases h1 : hasVideoExt p
      · by_cases h2 : fs.pathExists p = false
        · simp [process_input, hcase, h1, h2]
        · by_cases h3 : context_file_exists env.fp st.contextFiles p <;>
            simp [process_input, hcase, h1, h2, h3, hm]
      · simp [process_input, hcase, h1]

def fsAll : FsModel := { pathExists := fun _ => true, listDir := fun _ => [] }

def stEmpty : BatchState := ⟨[], 0, 0⟩

/-- Witness for C9: a notification of unrecognized shape is a silent
no-op on a concrete state. -/
theorem c9_process_input_noop_witness :
    truthyStr (extract_file_path PipeInput.other) = none ∧
    process_input envEmptyT fsAll stEmpty PipeInput.other = (stEmpty, ⟨false, none⟩) :=
  ⟨rfl, (c9_process_input_noop envEmptyT fsAll stEmpty PipeInput.other).1 rfl⟩

/-- The configurations under which fetch raises before its candidate
loop: a configured specific file that is missing or has an unsupported
extension, or a configured videos directory that is missing. -/
def configBad (fs : FsModel) (cfg : Config) : Prop :=
  (∃ p, truthyStr cfg.specific_video_path = some p ∧
    (fs.pathExists p = false ∨ hasVideoExt p = false)) ∨
  (truthyStr cfg.specific_video_path = none ∧
    ∃ d, truthyStr cfg.videos_dir = some d ∧ fs.pathExists d = false)

/-- C8: fetch raises FileNotFound to its caller when the configured
specific video file or the configured videos directory does not exist,
raises UnsupportedFormat when the configured specific target has an
unsupported extension, and, when the model loads and the configuration is
good, returns normally whatever the per-item stages do, so per-item
failures are never fatal. -/
theorem c8_fatal_config_errors (env : Env) (fs : FsModel) (cfg : Config) (st : BatchState) :
    (∀ p, truthyStr cfg.specific_video_path = some p → fs.pathExists p = false →
      fetch env fs cfg st = .error (.fileNotFound p)) ∧
    (∀ p, truthyStr cfg.specific_video_path = some p → fs.pathExists p = true →
      hasVideoExt p = false → fetch env fs cfg st = .error (.unsupportedFormat p)) ∧
    (∀ d, truthyStr cfg.specific_video_path = none → truthyStr cfg.videos_dir = some d →
      fs.pathExists d = false → fetch env fs cfg st = .error (.fileNotFound d)) ∧
    (env.modelLoads = true → ¬ configBad fs cfg → ∃ st2, fetch env fs cfg st = .ok st2) := by
  refine ⟨?_, ?_, ?_, ?_⟩
  · intro p hp hexists
    simp [fetch, get_video_files, hp, hexists]
  · intro p hp hexists hext
    simp [fetch, get_video_files, hp, hexists, hext]
  · intro d hs hd hexists
    simp [fetch, get_video_files, hs, hd, hexists]
  · intro hm hbad
    cases hs : truthyStr cfg.specific_video_path with
    | some p =>
      have hex : fs.pathExists p = true := by
        by_contra hc
        exact hbad (Or.inl ⟨p, hs, Or.inl (by simpa using hc)⟩)
      have hext : hasVideoExt p = true := by
        by_contra hc
        exact hbad (Or.inl ⟨p, hs, Or.inr (by simpa using hc)⟩)
      exact ⟨fetch_loop env [resolve_video_path cfg.videos_dir p] st,
        by simp [fetch, get_video_files, hs, hex, hext, hm]⟩
    | none =>
      cases hd : truthyStr cfg.videos_dir with
      | none => exact ⟨st, by simp [fetch, hs, hd]⟩
      | some d =>
        have hex : fs.pathExists d = true := by
          by_contra hc
          exact hbad (Or.inr ⟨hs, d, hd, by simpa using hc⟩)
        by_cases hnames :
            sortDescBy (fun n => env.mtimeOf (joinPath d n)) ((fs.listDir d).filter hasVideoExt) = []
        · exact ⟨st, by simp [fetch, get_video_files, hs, hd, hex, hnames]⟩
        · exact ⟨fetch_loop env
              ((sortDescBy (fun n => env.mtimeOf (joinPath d n))
                ((fs.listDir d).filter hasVideoExt)).map (resolve_video_path cfg.videos_dir)) st,
            by simp [fetch, get_video_files, hs, hd, hex, hnames, hm]⟩

def cfgBadExt : Config := ⟨some (chars "/v/a.txt"), none⟩

/-- Witness for C8: a configured specific target with a non-video
extension makes fetch raise UnsupportedFormat. -/
theorem c8_fatal_config_errors_witness :
    truthyStr cfgBadExt.specific_video_path = some (chars "/v/a.txt") ∧
    fsAll.pathExists (chars "/v/a.txt") = true ∧
    hasVideoExt (chars "/v/a.txt") = false ∧
    fetch envEmptyT fsAll cfgBadExt stEmpty = .error (.unsupportedFormat (chars "/v/a.txt")) :=
  ⟨rfl, rfl, by decide,
    (c8_fatal_config_errors envEmptyT fsAll cfgBadExt stEmpty).2.1 (chars "/v/a.txt") rfl rfl
      (by decide)⟩

theorem insertDescBy_perm (key : PathStr → Nat) (x : PathStr) (l : List PathStr) :
    (insertDescBy key x l).Perm (x :: l) := by
  induction l with
  | nil => exact List.Perm.refl _
  | cons y ys ih =>
    by_cases h : key y ≤ key x
    · simp [insertDescBy, h]
    · simp only [insertDescBy, if_neg h]
      exact (ih.cons y).trans (List.Perm.swap x y ys)

theorem sortDescBy_perm (key : PathStr → Nat) (l : List PathStr) :
    (sortDescBy key l).Perm l := by
  induction l with
  | nil => exact List.Perm.refl _
  | cons x xs ih =>
    exact (insertDescBy_perm key x (sortDescBy key xs)).trans (ih.cons x)

theorem insertDescBy_sorted (key : PathStr → Nat) (x : PathStr) (l : List PathStr)
    (h : l.Pairwise (fun a b => key b ≤ key a)) :
    (insertDescBy key x l).Pairwise (fun a b => key b ≤ key a) := by
  induction l with
  | nil => simp [insertDescBy]
  | cons y ys ih =>
    rcases List.pairwise_cons.1 h with ⟨hy, hys⟩
    by_cases hxy : key y ≤ key x
    · simp only [insertDescBy, if_pos hxy]
      refine List.pairwise_cons.2 ⟨?_, h⟩
      intro z hz
      rcases List.mem_cons.1 hz with rfl | hz
      · exact hxy
      · exact le_trans (hy z hz) hxy
    · simp only [insertDescBy, if_neg hxy]
      refine List.pairwise_cons.2 ⟨?_, ih hys⟩
      intro z hz
      have hz' : z = x ∨ z ∈ ys := by
        simpa using (insertDescBy_perm key x ys).mem_iff.1 hz
      rcases hz' with rfl | hz'
      · exact le_of_not_le hxy
      · exact hy z hz'

theorem sortDescBy_sorted (key : PathStr → Nat) (l : List PathStr) :
    (sortDescBy key l).Pairwise (fun a b => key b ≤ key a) := by
  induction l with
  | nil => simp [sortDescBy]
  | cons x xs ih => exact insertDescBy_sorted key x (sortDescBy key xs) ih

/-- C5: in directory mode (no specific target configured) discovery
returns the video files of the directory sorted by modification time
descending; with pairwise distinct modification times the order is
strictly descending, and the candidate loop iterates this list in order. -/
theorem c5_discovery_order (env : Env) (fs : FsModel) (d : PathStr) (hd : d ≠ [])
    (hex : fs.pathExists d = true) :
    ∃ names, get_video_files env fs none (some d) = .ok names ∧
      names.Perm ((fs.listDir d).filter hasVideoExt) ∧
      names.Pairwise (fun a b => env.mtimeOf (joinPath d b) ≤ env.mtimeOf (joinPath d a)) ∧
      (((fs.listDir d).filter hasVideoExt).Pairwise
          (fun a b => env.mtimeOf (joinPath d a) ≠ env.mtimeOf (joinPath d b)) →
        names.Pairwise (fun a b => env.mtimeOf (joinPath d b) < env.mtimeOf (joinPath d a))) ∧
      candidatesOf env fs ⟨none, some d⟩ = names.map (resolve_video_path (some d)) := by
  set key : PathStr → Nat := fun n => env.mtimeOf (joinPath d n) with hkey
  refine ⟨sortDescBy key ((fs.listDir d).filter hasVideoExt), ?_, ?_, ?_, ?_, ?_⟩
  · simp [get_video_files, truthyStr, hd, hex]
  · exact sortDescBy_perm key _
  · exact sortDescBy_sorted key _
  · intro hdist
    have hperm := sortDescBy_perm key ((fs.listDir d).filter hasVideoExt)
    have hne : (sortDescBy key ((fs.listDir d).filter hasVideoExt)).Pairwise
        (fun a b => key a ≠ key b) := by
      exact (List.Perm.pairwise_iff (fun h => h.symm) hperm).2 hdist
    exact ((sortDescBy_sorted key _).and hne).imp
      (fun h => lt_of_le_of_ne h.1 h.2.symm)
  · simp [candidatesOf, get_video_files, truthyStr, hd, hex]

def envC5 : Env := { envEmptyT with mtimeOf := fun p => p.length }

def fsC5 : FsModel :=
  { pathExists := fun _ => true
    listDir := fun _ => [chars "a.mp4", chars "bb.mp4", chars "x.txt"] }

/-- Witness for C5 on a concrete directory listing whose joined paths
have pairwise distinct modification times. -/
theorem c5_discovery_order_witness :
    chars "v" ≠ [] ∧ fsC5.pathExists (chars "v") = true ∧
    (∃ names, get_video_files envC5 fsC5 none (some (chars "v")) = .ok names ∧
      names.Perm ((fsC5.listDir (chars "v")).filter hasVideoExt) ∧
      names.Pairwise
        (fun a b => envC5.mtimeOf (joinPath (chars "v") b) ≤ envC5.mtimeOf (joinPath (chars "v") a)) ∧
      (((fsC5.listDir (chars "v")).filter hasVideoExt).Pairwise
          (fun a b =>
            envC5.mtimeOf (joinPath (chars "v") a) ≠ envC5.mtimeOf (joinPath (chars "v") b)) →
        names.Pairwise
          (fun a b =>
            envC5.mtimeOf (joinPath (chars "v") b) < envC5.mtimeOf (joinPath (chars "v") a))) ∧
      candidatesOf envC5 fsC5 ⟨none, some (chars "v")⟩ =
        names.map (resolve_video_path (some (chars "v")))) :=
  ⟨by decide, rfl, c5_discovery_order envC5 fsC5 (chars "v") (by decide) rfl⟩

theorem fetch_loop_nil (env : Env) (st : BatchState) : fetch_loop env [] st = st := rfl

theorem fetch_loop_cons (env : Env) (v : PathStr) (vs : List PathStr) (st : BatchState) :
    fetch_loop env (v :: vs) st = fetch_loop env vs (fetch_step env st v) := rfl

theorem process_video_file_success_artifact (env : Env) (v : PathStr)
    (h : (process_video_file env v).success = true) :
    ∃ t, t ≠ [] ∧ env.outcome v = .transcript t ∧
      (process_video_file env v).artifact = some (build_transcript_payload env t v) := by
  cases ho : env.outcome v with
  | transcript t =>
    by_cases ht : t = []
    · subst ht
      simp [process_video_file, ho] at h
    · exact ⟨t, ht, rfl, by simp [process_video_file, ho, ht]⟩
  | extractFail => simp [process_video_file, ho] at h
  | transcribeErr => simp [process_video_file, ho] at h
  | exn => simp [process_video_file, ho] at h

theorem process_video_file_fail_artifact (env : Env) (v : PathStr)
    (h : (process_video_file env v).success = false) :
    (process_video_file env v).artifact = none ∧ (process_video_file env v).events = [] := by
  cases ho : env.outcome v with
  | transcript t =>
    by_cases ht : t = []
    · subst ht
      simp [process_video_file, ho]
    · simp [process_video_file, ho, ht] at h
  | extractFail => simp [process_video_file, ho]
  | transcribeErr => simp [process_video_file, ho]
  | exn => simp [process_video_file, ho]

theorem context_file_exists_append (fp : PathStr → Option PathStr)
    (cs e : List (Option ContextMeta)) (p : PathStr)
    (h : context_file_exists fp cs p = true) :
    context_file_exists fp (cs ++ e) p = true := by
  simp only [context_file_exists, List.any_append, Bool.or_eq_true] at *
  exact Or.inl h

theorem fetch_step_contextFiles (env : Env) (st : BatchState) (v : PathStr) :
    ∃ e, (fetch_step env st v).contextFiles = st.contextFiles ++ e := by
  by_cases h : context_file_exists env.fp st.contextFiles v = true
  · exact ⟨[], by simp [fetch_step, h]⟩
  · cases ha : (process_video_file env v).artifact with
    | none => exact ⟨[], by simp [fetch_step, h, ha]⟩
    | some a => exact ⟨[some (payloadMeta a)], by simp [fetch_step, h, ha]⟩

theorem fetch_loop_contextFiles (env : Env) (vids : List PathStr) :
    ∀ st : BatchState, ∃ e, (fetch_loop env vids st).contextFiles = st.contextFiles ++ e := by
  induction vids with
  | nil => exact fun st => ⟨[], by simp [fetch_loop_nil]⟩
  | cons v vs ih =>
    intro st
    obtain ⟨e1, he1⟩ := fetch_step_contextFiles env st v
    obtain ⟨e2, he2⟩ := ih (fetch_step env st v)
    refine ⟨e1 ++ e2, ?_⟩
    rw [fetch_loop_cons, he2, he1, List.append_assoc]

theorem fetch_loop_preserves_match (env : Env) (vids : List PathStr) (st : BatchState)
    (p : PathStr) (h : context_file_exists env.fp st.contextFiles p = true) :
    context_file_exists env.fp (fetch_loop env vids st).contextFiles p = true := by
  obtain ⟨e, he⟩ := fetch_loop_contextFiles env vids st
  rw [he]
  exact context_file_exists_append _ _ _ _ h

theorem batchStateMkEq (cs : List (Option ContextMeta)) (p1 s1 p2 s2 : Nat)
    (hp : p1 = p2) (hs : s1 = s2) :
    (⟨cs, p1, s1⟩ : BatchState) = ⟨cs, p2, s2⟩ := by
  rw [hp, hs]

theorem fetch_loop_counters_shift (env : Env) (vids : List PathStr) :
    ∀ (cs : List (Option ContextMeta)) (p s : Nat),
    fetch_loop env vids ⟨cs, p, s⟩ =
      ⟨(fetch_loop env vids ⟨cs, 0, 0⟩).contextFiles,
        p + (fetch_loop env vids ⟨cs, 0, 0⟩).processed_count,
        s + (fetch_loop env vids ⟨cs, 0, 0⟩).skipped_count⟩ := by
  induction vids with
  | nil =>
    intro cs p s
    simp [fetch_loop_nil]
  | cons v vs ih =>
    intro cs p s
    rw [fetch_loop_cons, fetch_loop_cons]
    by_cases hm : context_file_exists env.fp cs v = true
    · have h1 : fetch_step env ⟨cs, p, s⟩ v = ⟨cs, p, s + 1⟩ := by simp [fetch_step, hm]
      have h2 : fetch_step env ⟨cs, 0, 0⟩ v = ⟨cs, 0, 0 + 1⟩ := by simp [fetch_step, hm]
      rw [h1, h2, ih cs p (s + 1), ih cs 0 (0 + 1)]
      exact batchStateMkEq _ _ _ _ _ (by dsimp only; omega) (by dsimp only; omega)
    · cases ha : (process_video_file env v).artifact with
      | none =>
        have h1 : fetch_step env ⟨cs, p, s⟩ v = ⟨cs, p, s⟩ := by simp [fetch_step, hm, ha]
        have h2 : fetch_step env ⟨cs, 0, 0⟩ v = ⟨cs, 0, 0⟩ := by simp [fetch_step, hm, ha]
        rw [h1, h2]
        exact ih cs p s
      | some a =>
        have h1 : fetch_step env ⟨cs, p, s⟩ v = ⟨cs ++ [some (payloadMeta a)], p + 1, s⟩ := by
          simp [fetch_step, hm, ha]
        have h2 : fetch_step env ⟨cs, 0, 0⟩ v = ⟨cs ++ [some (payloadMeta a)], 0 + 1, 0⟩ := by
          simp [fetch_step, hm, ha]
        rw [h1, h2, ih _ (p + 1) s, ih _ (0 + 1) 0]
        exact batchStateMkEq _ _ _ _ _ (by dsimp only; omega) (by dsimp only; omega)

/-- C7 amended: the processed and skipped counters are initialized in the
constructor and never reset by fetch, so a run adds its own deltas on top
of whatever the counters held when it started; the counts reflect only
one invocation exactly when the instance is fresh. -/
theorem c7_counters_accumulate (env : Env) (vids : List PathStr) (st : BatchState) :
    (fetch_loop env vids st).processed_count
      = st.processed_count + (fetch_loop env vids ⟨st.contextFiles, 0, 0⟩).processed_count ∧
    (fetch_loop env vids st).skipped_count
      = st.skipped_count + (fetch_loop env vids ⟨st.contextFiles, 0, 0⟩).skipped_count ∧
    (fetch_loop env vids st).contextFiles
      = (fetch_loop env vids ⟨st.contextFiles, 0, 0⟩).contextFiles := by
  obtain ⟨cs, p, s⟩ := st
  rw [fetch_loop_counters_shift env vids cs p s]
  exact ⟨rfl, rfl, rfl⟩

def envDistinct : Env :=
  { envEmptyT with fp := fun p => some p, outcome := fun _ => .transcript (chars "text") }

def fsTwo : FsModel :=
  { pathExists := fun _ => true
    listDir := fun _ => [chars "a.mp4", chars "b.mp4"] }

def cfgDir : Config := ⟨none, some (chars "v")⟩

/-- C7 counterexample: the instance counters are not reset at the start of
fetch: after one successful process_input call on the same instance, a
first batch run over two new videos ends with processed_count 3, not 2 as
the claim predicts. -/
theorem c7_counterexample :
    (process_input envDistinct fsTwo stEmpty (.str (chars "/old.mp4"))).1.processed_count = 1 ∧
    (fetch envDistinct fsTwo cfgDir
        (process_input envDistinct fsTwo stEmpty (.str (chars "/old.mp4"))).1).toOption.map
      BatchState.processed_count = some 3 := by
  decide

/-- Two candidates with pairwise different identities for the dedup scan:
different paths, different basenames, and fingerprints that cannot agree
on a common digest. -/
def distinctIdentity (env : Env) (v w : PathStr) : Prop :=
  v ≠ w ∧ basename v ≠ basename w ∧ (env.fp v = none ∨ env.fp v ≠ env.fp w)

instance (env : Env) (v w : PathStr) : Decidable (distinctIdentity env v w) := by
  unfold distinctIdentity
  infer_instance

theorem check_meta_artifact_ne (env : Env) (t : List Char) (v w : PathStr)
    (hdist : distinctIdentity env v w) :
    check_context_metadata (some (payloadMeta (build_transcript_payload env t v))) w
      (env.fp w) (basename w) = false := by
  obtain ⟨hpw, hfn, hh⟩ := hdist
  simp only [check_context_metadata, payloadMeta, build_transcript_payload]
  rw [if_neg (by simpa using hpw), if_neg (by simpa using hfn)]
  cases hw : env.fp w with
  | none => rfl
  | some h =>
    show (if h ≠ [] ∧ env.fp v = some h then true else false) = false
    rw [if_neg]
    rintro ⟨-, hhash⟩
    rcases hh with h0 | h0
    · rw [h0] at hhash
      cases hhash
    · exact h0 (hhash.trans hw.symm)

theorem context_file_exists_own_artifact (fp : PathStr → Option PathStr)
    (cs : List (Option ContextMeta)) (a : TranscriptPayload) (p : PathStr)
    (hpath : a.video_path = p) :
    context_file_exists fp (cs ++ [some (payloadMeta a)]) p = true := by
  simp only [context_file_exists, List.any_append, Bool.or_eq_true]
  refine Or.inr ?_
  simp [check_context_metadata, payloadMeta, hpath]

theorem fetch_loop_fresh (env : Env) (vids : List PathStr) : ∀ st : BatchState,
    (∀ v ∈ vids, context_file_exists env.fp st.contextFiles v = false) →
    vids.Pairwise (distinctIdentity env) →
    (fetch_loop env vids st).processed_count
        = st.processed_count + vids.countP (fun v => (process_video_file env v).success) ∧
    (fetch_loop env vids st).skipped_count = st.skipped_count ∧
    ∀ v ∈ vids, (process_video_file env v).success = true →
      ∃ a, some (payloadMeta a) ∈ (fetch_loop env vids st).contextFiles ∧ a.video_path = v := by
  induction vids with
  | nil =>
    intro st _ _
    exact ⟨by simp [fetch_loop_nil], by simp [fetch_loop_nil], by simp⟩
  | cons v vs ih =>
    intro st hfresh hdist
    rw [fetch_loop_cons]
    have hv := hfresh v (List.mem_cons_self v vs)
    rcases List.pairwise_cons.1 hdist with ⟨hdv, hdvs⟩
    by_cases hs : (process_video_file env v).success = true
    · obtain ⟨t, ht, ho, ha⟩ := process_video_file_success_artifact env v hs
      have hstep : fetch_step env st v =
          ⟨st.contextFiles ++ [some (payloadMeta (build_transcript_payload env t v))],
            st.processed_count + 1, st.skipped_count⟩ := by
        simp [fetch_step, hv, ha]
      have hfresh' : ∀ w ∈ vs, context_file_exists env.fp
          (st.contextFiles ++ [some (payloadMeta (build_transcript_payload env t v))]) w
            = false := by
        intro w hw
        have h1 := hfresh w (List.mem_cons_of_mem v hw)
        have h2 := check_meta_artifact_ne env t v w (hdv w hw)
        simp only [context_file_exists, List.any_append, Bool.or_eq_false_iff] at h1 ⊢
        refine ⟨h1, ?_⟩
        simpa using h2
      obtain ⟨hP, hS, hA⟩ := ih (fetch_step env st v) (by rw [hstep]; exact hfresh') hdvs
      refine ⟨?_, ?_, ?_⟩
      · rw [hP, hstep]
        simp [List.countP_cons, hs]
        omega
      · rw [hS, hstep]
      · intro w hw hws
        rcases List.mem_cons.1 hw with rfl | hw'
        · refine ⟨build_transcript_payload env t w, ?_, rfl⟩
          obtain ⟨e, he⟩ := fetch_loop_contextFiles env vs (fetch_step env st w)
          rw [he, hstep]
          exact List.mem_append_left e (by simp)
        · exact hA w hw' hws
    · have hb : (process_video_file env v).success = false := by
        simpa using hs
      obtain ⟨hart, -⟩ := process_video_file_fail_artifact env v hb
      have hstep : fetch_step env st v = st := by
        simp [fetch_step, hv, hart]
      obtain ⟨hP, hS, hA⟩ := ih (fetch_step env st v)
        (by rw [hstep]; exact fun w hw => hfresh w (List.mem_cons_of_mem v hw)) hdvs
      refine ⟨?_, ?_, ?_⟩
      · rw [hP, hstep]
        simp [List.countP_cons, hb]
      · rw [hS, hstep]
      · intro w hw hws
        rcases List.mem_cons.1 hw with rfl | hw'
        · exact absurd hws hs
        · exact hA w hw' hws

theorem countP_unique_failure {α : Type} (p : α → Bool) (vids : List α) (k : α)
    (hnd : vids.Nodup) (hk : k ∈ vids) (hkf : p k = false)
    (hs : ∀ v ∈ vids, v ≠ k → p v = true) :
    vids.countP p = vids.length - 1 := by
  induction vids with
  | nil => cases hk
  | cons v vs ih =>
    rcases List.mem_cons.1 hk with rfl | hk'
    · have hall : ∀ w ∈ vs, p w = true := by
        intro w hw
        refine hs w (List.mem_cons_of_mem k hw) ?_
        intro he
        exact (List.nodup_cons.1 hnd).1 (he ▸ hw)
      rw [List.countP_cons, hkf, List.countP_eq_length.2 hall]
      simp
    · have hvk : v ≠ k := by
        intro he
        exact (List.nodup_cons.1 hnd).1 (he ▸ hk')
      have hpv : p v = true := hs v (List.mem_cons_self v vs) hvk
      rw [List.countP_cons, hpv]
      rw [ih (List.nodup_cons.1 hnd).2 hk'
        (fun w hw hne => hs w (List.mem_cons_of_mem v hw) hne)]
      have hlen : 1 ≤ vs.length := List.length_pos.2 (List.ne_nil_of_mem hk')
      show vs.length - 1 + 1 = vs.length + 1 - 1
      omega

/-- C3: on a fresh output directory, with candidates of pairwise distinct
identities, when the single item pipeline fails for exactly the candidate
k, _process_video_file returns no artifact and no event for k (its caught
failure), the batch still produces an artifact for every other candidate,
and the run ends with processed plus skipped equal to N minus one. -/
theorem c3_partial_failure_isolation (env : Env) (vids : List PathStr) (k : PathStr)
    (cs0 : List (Option ContextMeta))
    (hk : k ∈ vids)
    (hdist : vids.Pairwise (distinctIdentity env))
    (hfresh : ∀ v ∈ vids, context_file_exists env.fp cs0 v = false)
    (hkfail : (process_video_file env k).success = false)
    (hsucc : ∀ v ∈ vids, v ≠ k → (process_video_file env v).success = true) :
    (process_video_file env k).artifact = none ∧
    (process_video_file env k).events = [] ∧
    (fetch_loop env vids ⟨cs0, 0, 0⟩).processed_count
        + (fetch_loop env vids ⟨cs0, 0, 0⟩).skipped_count = vids.length - 1 ∧
    ∀ v ∈ vids, v ≠ k →
      ∃ a, some (payloadMeta a) ∈ (fetch_loop env vids ⟨cs0, 0, 0⟩).contextFiles ∧
        a.video_path = v := by
  obtain ⟨hart, hev⟩ := process_video_file_fail_artifact env k hkfail
  obtain ⟨hP, hS, hA⟩ := fetch_loop_fresh env vids ⟨cs0, 0, 0⟩ hfresh hdist
  refine ⟨hart, hev, ?_, fun v hv hne => hA v hv (hsucc v hv hne)⟩
  rw [hP, hS]
  have hnodup : vids.Nodup := hdist.imp (fun h => h.1)
  rw [countP_unique_failure (fun v => (process_video_file env v).success) vids k hnodup hk
    hkfail hsucc]
  simp

def envFailB : Env :=
  { envEmptyT with fp := fun p => some p
                   outcome := fun p =>
                     if p = chars "/b.mp4" then .extractFail else .transcript (chars "text") }

/-- Witness for C3: three concrete candidates of which exactly the second
fails at the extraction stage. -/
theorem c3_partial_failure_isolation_witness :
    (chars "/b.mp4" ∈ [chars "/a.mp4", chars "/b.mp4", chars "/c.mp4"]) ∧
    ([chars "/a.mp4", chars "/b.mp4", chars "/c.mp4"].Pairwise (distinctIdentity envFailB)) ∧
    (∀ v ∈ [chars "/a.mp4", chars "/b.mp4", chars "/c.mp4"],
      context_file_exists envFailB.fp [] v = false) ∧
    ((process_video_file envFailB (chars "/b.mp4")).success = false) ∧
    (∀ v ∈ [chars "/a.mp4", chars "/b.mp4", chars "/c.mp4"], v ≠ chars "/b.mp4" →
      (process_video_file envFailB v).success = true) ∧
    ((process_video_file envFailB (chars "/b.mp4")).artifact = none ∧
      (process_video_file envFailB (chars "/b.mp4")).events = [] ∧
      (fetch_loop envFailB [chars "/a.mp4", chars "/b.mp4", chars "/c.mp4"] ⟨[], 0, 0⟩).processed_count
          + (fetch_loop envFailB [chars "/a.mp4", chars "/b.mp4", chars "/c.mp4"]
              ⟨[], 0, 0⟩).skipped_count
        = [chars "/a.mp4", chars "/b.mp4", chars "/c.mp4"].length - 1 ∧
      ∀ v ∈ [chars "/a.mp4", chars "/b.mp4", chars "/c.mp4"], v ≠ chars "/b.mp4" →
        ∃ a, some (payloadMeta a) ∈
            (fetch_loop envFailB [chars "/a.mp4", chars "/b.mp4", chars "/c.mp4"]
              ⟨[], 0, 0⟩).contextFiles ∧
          a.video_path = v) :=
  ⟨by decide, by decide, by decide, by decide, by decide,
    c3_partial_failure_isolation envFailB [chars "/a.mp4", chars "/b.mp4", chars "/c.mp4"]
      (chars "/b.mp4") [] (by decide) (by decide) (by decide) (by decide) (by decide)⟩

theorem fetch_loop_skip_all (env : Env) (vids : List PathStr) : ∀ st : BatchState,
    (∀ v ∈ vids, context_file_exists env.fp st.contextFiles v = true) →
    fetch_loop env vids st =
      ⟨st.contextFiles, st.processed_count, st.skipped_count + vids.length⟩ := by
  induction vids with
  | nil =>
    intro st _
    simp [fetch_loop_nil]
  | cons v vs ih =>
    intro st hall
    rw [fetch_loop_cons]
    have hv := hall v (List.mem_cons_self v vs)
    have hstep : fetch_step env st v =
        ⟨st.contextFiles, st.processed_count, st.skipped_count + 1⟩ := by
      simp [fetch_step, hv]
    rw [hstep, ih ⟨st.contextFiles, st.processed_count, st.skipped_count + 1⟩
      (fun w hw => hall w (List.mem_cons_of_mem v hw))]
    show (⟨st.contextFiles, st.processed_count, st.skipped_count + 1 + vs.length⟩ : BatchState)
      = ⟨st.contextFiles, st.processed_count, st.skipped_count + (vs.length + 1)⟩
    exact batchStateMkEq _ _ _ _ _ rfl (by omega)

theorem fetch_loop_all_match (env : Env) (vids : List PathStr) : ∀ st : BatchState,
    (∀ v ∈ vids, (process_video_file env v).success = true) →
    ∀ v ∈ vids, context_file_exists env.fp (fetch_loop env vids st).contextFiles v = true := by
  induction vids with
  | nil =>
    intro st _ v hv
    cases hv
  | cons w ws ih =>
    intro st hsucc v hv
    rw [fetch_loop_cons]
    rcases List.mem_cons.1 hv with rfl | hv'
    · apply fetch_loop_preserves_match
      by_cases hm : context_file_exists env.fp st.contextFiles v = true
      · obtain ⟨e, he⟩ := fetch_step_contextFiles env st v
        rw [he]
        exact context_file_exists_append _ _ _ _ hm
      · obtain ⟨t, ht, ho, ha⟩ := process_video_file_success_artifact env v
          (hsucc v (List.mem_cons_self v ws))
        have hstep : (fetch_step env st v).contextFiles
            = st.contextFiles ++ [some (payloadMeta (build_transcript_payload env t v))] := by
          simp [fetch_step, hm, ha]
        rw [hstep]
        exact context_file_exists_own_artifact _ _ _ _ rfl
    · exact ih (fetch_step env st w)
        (fun u hu => hsucc u (List.mem_cons_of_mem w hu)) v hv'

theorem fetch_ok_run (env : Env) (fs : FsModel) (cfg : Config) (st0 st1 : BatchState)
    (h : fetch env fs cfg st0 = .ok st1) (st : BatchState) :
    fetch env fs cfg st = .ok (fetch_loop env (candidatesOf env fs cfg) st) := by
  by_cases hA : truthyStr cfg.specific_video_path = none ∧ truthyStr cfg.videos_dir = none
  · simp [fetch, candidatesOf, hA, fetch_loop_nil]
  · cases hgv : get_video_files env fs cfg.specific_video_path cfg.videos_dir with
    | error e =>
      exfalso
      simp [fetch, hA, hgv] at h
    | ok names =>
      by_cases hnames : names = []
      · subst hnames
        simp [fetch, candidatesOf, hA, hgv, fetch_loop_nil]
      · by_cases hml : env.modelLoads = false
        · exfalso
          simp [fetch, hA, hgv, hnames, hml] at h
        · simp [fetch, candidatesOf, hA, hgv, hnames, hml]

/-- C2 amended: when a completed first run of fetch found every candidate
either already deduplicated or processed it successfully, a second run of
fetch with both directories unchanged writes zero additional artifacts and
overwrites none: the output directory contents are returned unchanged and
every candidate is skipped, each matching some dedup rule against the
artifacts present after the first run (a candidate processed by the first
run matches rule 1; a candidate that was already deduplicated may match
only the fingerprint rule, so not necessarily rule 1 or rule 2). -/
theorem c2_second_run_all_skipped (env : Env) (fs : FsModel) (cfg : Config)
    (st0 st1 : BatchState)
    (h1 : fetch env fs cfg st0 = .ok st1)
    (hsucc : ∀ v ∈ candidatesOf env fs cfg, (process_video_file env v).success = true) :
    fetch env fs cfg st1 =
      .ok ⟨st1.contextFiles, st1.processed_count,
        st1.skipped_count + (candidatesOf env fs cfg).length⟩ ∧
    ∃ extra, st1.contextFiles = st0.contextFiles ++ extra := by
  have hrun := fetch_ok_run env fs cfg st0 st1 h1
  have hst1 : st1 = fetch_loop env (candidatesOf env fs cfg) st0 := by
    have h2 := hrun st0
    rw [h1] at h2
    injection h2
  constructor
  · rw [hrun st1]
    congr 1
    apply fetch_loop_skip_all
    intro v hv
    rw [hst1]
    exact fetch_loop_all_match env (candidatesOf env fs cfg) st0 hsucc v hv
  · rw [hst1]
    exact fetch_loop_contextFiles env (candidatesOf env fs cfg) st0

def envSameHash : Env := { envDistinct with fp := fun _ => some (chars "h1") }

instance : DecidableEq (Except FetchErr BatchState) := fun x y =>
  match x, y with
  | .ok a, .ok b =>
    match decEq a b with
    | isTrue h => isTrue (by rw [h])
    | isFalse h => isFalse (fun hc => h (by injection hc))
  | .error a, .error b =>
    match decEq a b with
    | isTrue h => isTrue (by rw [h])
    | isFalse h => isFalse (fun hc => h (by injection hc))
  | .ok _, .error _ => isFalse (fun hc => Except.noConfusion hc)
  | .error _, .ok _ => isFalse (fun hc => Except.noConfusion hc)

/-- C2 counterexample: two same-content videos in the source directory.
The first run completes, processing the first candidate and deduplicating
the second through the fingerprint rule.  On the second run the second
candidate still matches no artifact by rule 1 or rule 2 even though the
full dedup check matches it and both candidates are skipped, so the
claim that on the second run every candidate matches rule 1 or rule 2 is
false. -/
theorem c2_counterexample :
    fetch envSameHash fsTwo cfgDir stEmpty =
      .ok ⟨[some ⟨some (chars "v/a.mp4"), some (chars "a.mp4"), some (chars "h1")⟩], 1, 1⟩ ∧
    context_file_exists envSameHash.fp
      [some ⟨some (chars "v/a.mp4"), some (chars "a.mp4"), some (chars "h1")⟩]
      (chars "v/b.mp4") = true ∧
    List.any [some ⟨some (chars "v/a.mp4"), some (chars "a.mp4"), some (chars "h1")⟩]
      (fun cf => check_rule12 cf (chars "v/b.mp4") (basename (chars "v/b.mp4"))) = false ∧
    fetch envSameHash fsTwo cfgDir
        ⟨[some ⟨some (chars "v/a.mp4"), some (chars "a.mp4"), some (chars "h1")⟩], 1, 1⟩ =
      .ok ⟨[some ⟨some (chars "v/a.mp4"), some (chars "a.mp4"), some (chars "h1")⟩], 1, 3⟩ := by
  decide

def st1val : BatchState :=
  ⟨[some ⟨some (chars "v/a.mp4"), some (chars "a.mp4"), some (chars "v/a.mp4")⟩,
    some ⟨some (chars "v/b.mp4"), some (chars "b.mp4"), some (chars "v/b.mp4")⟩], 2, 0⟩

/-- Witness for the amended C2 on a concrete two-video directory whose
first run processes both candidates. -/
theorem c2_second_run_all_skipped_witness :
    fetch envDistinct fsTwo cfgDir stEmpty = .ok st1val ∧
    (∀ v ∈ candidatesOf envDistinct fsTwo cfgDir,
      (process_video_file envDistinct v).success = true) ∧
    (fetch envDistinct fsTwo cfgDir st1val =
      .ok ⟨st1val.contextFiles, st1val.processed_count,
        st1val.skipped_count + (candidatesOf envDistinct fsTwo cfgDir).length⟩ ∧
    ∃ extra, st1val.contextFiles = stEmpty.contextFiles ++ extra) :=
  ⟨by decide, by decide,
    c2_second_run_all_skipped envDistinct fsTwo cfgDir stEmpty st1val (by decide) (by decide)⟩
